import Mathlib

-- Verification development for the Inventory-Tracker service.
-- Each section embeds one area of the source code as executable Lean
-- definitions (strings are modelled as lists of characters, database
-- tables as lists of row structures, and fallible external calls as
-- explicit boolean outcome parameters), and the theorems at the end of
-- the file settle the specification claims against those definitions.

namespace InventoryTracker

/-- Error taxonomy of lib/errors: the constructors stand for
ValidationError, NotFoundError, UnauthorizedError and errors propagated
verbatim from the external database client. -/
inductive ApiError where
  | validation
  | notFound
  | unauthorized
  | external
deriving DecidableEq, Repr

/-- Decidable equality of request outcomes, so that concrete runs can be
checked by evaluation. -/
instance {ε α : Type} [DecidableEq ε] [DecidableEq α] :
    DecidableEq (Except ε α) := fun x y =>
  match x, y with
  | .ok a, .ok b =>
    if h : a = b then .isTrue (by rw [h]) else .isFalse (by simp [h])
  | .error e, .error f =>
    if h : e = f then .isTrue (by rw [h]) else .isFalse (by simp [h])
  | .ok _, .error _ => .isFalse (by simp)
  | .error _, .ok _ => .isFalse (by simp)

namespace CSV

/-- Embedding of the loop body of parseCSVLine
(models/product/csv_routes.ts, lines 322-356): the JS mutable variables
result, current and inQuotes become the returned list, the second
argument and the third argument.  A pushed field becomes a cons cell in
front of the recursive call, exactly when the source pushes current and
resets it. -/
def parseCSVLineAux : List Char → List Char → Bool → List (List Char)
  | [], current, _ =>
    -- loop over, push the last field
    [current]
  | c :: rest, current, false =>
    if c = '"' then
      -- toggle quote state (entering quotes)
      parseCSVLineAux rest current true
    else if c = ',' then
      -- end of field: result.push(current); current = ''
      current :: parseCSVLineAux rest [] false
    else
      parseCSVLineAux rest (current ++ [c]) false
  | [c], current, true =>
    -- nextChar is undefined here, so the escaped-quote branch cannot
    -- fire: a final quote toggles out and the loop then pushes current
    if c = '"' then [current]
    else [current ++ [c]]
  | c :: d :: rest2, current, true =>
    if c = '"' then
      if d = '"' then
        -- escaped quote: current += q, skip next quote
        parseCSVLineAux rest2 (current ++ ['"']) true
      else
        -- toggle quote state (leaving quotes)
        parseCSVLineAux (d :: rest2) current false
    else
      -- inside quotes a comma is an ordinary character
      parseCSVLineAux (d :: rest2) (current ++ [c]) true
termination_by structural cs _ _ => cs

/-- parseCSVLine of models/product/csv_routes.ts (the copy in
models/inventory/csv-routes.ts is character for character the same
routine). -/
def parseCSVLine (line : List Char) : List (List Char) :=
  parseCSVLineAux line [] false

/-- Quoting rule of the product CSV export (csv_routes.ts line 56):
every internal double quote is doubled. -/
def escapeQuotes : List Char → List Char
  | [] => []
  | c :: rest =>
    if c = '"' then '"' :: '"' :: escapeQuotes rest
    else c :: escapeQuotes rest

/-- One exported field: wrapped in double quotes with internal quotes
doubled (csv_routes.ts line 60). -/
def quoteField (f : List Char) : List Char :=
  '"' :: (escapeQuotes f ++ ['"'])

/-- A full data line as produced by the export: each field quoted, the
fields joined with commas. -/
def encodeFields : List (List Char) → List Char
  | [] => []
  | [f] => quoteField f
  | f :: fs => quoteField f ++ ',' :: encodeFields fs

-- String helpers mirroring the JS string methods used by the import.

/-- The whitespace recognised by the JS trim on this data. -/
def isSpaceChar (c : Char) : Bool :=
  c = ' ' || c = '\t' || c = '\n' || c = '\r'

/-- JS trim: strip whitespace from both ends. -/
def trimChars (l : List Char) : List Char :=
  ((l.dropWhile isSpaceChar).reverse.dropWhile isSpaceChar).reverse

/-- JS toLowerCase on this ASCII data. -/
def toLowerChars (l : List Char) : List Char :=
  l.map Char.toLower

/-- Prepend a character to the first piece of a split result. -/
def consHead (c : Char) : List (List Char) → List (List Char)
  | [] => [[c]]
  | f :: fs => (c :: f) :: fs

/-- JS split on the line pattern: a newline optionally preceded by a
carriage return separates lines. -/
def splitLines : List Char → List (List Char)
  | [] => [[]]
  | '\r' :: '\n' :: rest => [] :: splitLines rest
  | '\n' :: rest => [] :: splitLines rest
  | c :: rest => consHead c (splitLines rest)

/-- JS split on a single separator character (used with the semicolon
for category and image lists). -/
def splitOnChar (sep : Char) : List Char → List (List Char)
  | [] => [[]]
  | c :: rest =>
    if c = sep then [] :: splitOnChar sep rest
    else consHead c (splitOnChar sep rest)

/-- JS Array.prototype.indexOf: first index of the value, or -1. -/
def indexOfJS (l : List (List Char)) (target : List Char) : Int :=
  match l with
  | [] => -1
  | x :: xs =>
    if x = target then 0
    else
      let r := indexOfJS xs target
      if r = -1 then -1 else r + 1

/-- values[idx] for a possibly negative index: undefined outside the
array becomes none. -/
def getVal (values : List (List Char)) (idx : Int) : Option (List Char) :=
  if idx < 0 then none else values[idx.toNat]?

/-- values[idx]?.trim() with undefined collapsed to the empty string,
as done by the import for every column (the || fallback for the
optional columns yields the empty string as well). -/
def fieldAt (values : List (List Char)) (idx : Int) : List Char :=
  trimChars ((getVal values idx).getD [])

/-- Decimal value of a digit run. -/
def digitsVal (ds : List Char) : Nat :=
  ds.foldl (fun acc c => acc * 10 + (c.toNat - '0'.toNat)) 0

/-- JS parseInt on this decimal data: optional sign, then a leading
digit run; none (NaN) when there is no digit.  Hexadecimal prefixes and
other radixes do not occur in this data and are not modelled. -/
def parseIntJS (s : List Char) : Option Int :=
  match s with
  | '-' :: rest =>
    let ds := rest.takeWhile Char.isDigit
    if ds.isEmpty then none else some (-(digitsVal ds : Int))
  | '+' :: rest =>
    let ds := rest.takeWhile Char.isDigit
    if ds.isEmpty then none else some ((digitsVal ds : Int))
  | _ =>
    let ds := s.takeWhile Char.isDigit
    if ds.isEmpty then none else some ((digitsVal ds : Int))

/-- Unsigned part of JS parseFloat: integer digits, optionally a dot
and fraction digits; none (NaN) when there is no digit at all.
Exponent notation does not occur in this data and is not modelled. -/
def parseFloatCore (s : List Char) : Option Rat :=
  let intDs := s.takeWhile Char.isDigit
  match s.dropWhile Char.isDigit with
  | '.' :: rest2 =>
    let fracDs := rest2.takeWhile Char.isDigit
    if intDs.isEmpty ∧ fracDs.isEmpty then none
    else some (mkRat
      (digitsVal intDs * 10 ^ fracDs.length + digitsVal fracDs)
      (10 ^ fracDs.length))
  | _ => if intDs.isEmpty then none else some (mkRat (digitsVal intDs) 1)

/-- JS parseFloat on this decimal data: optional sign, then the
unsigned part. -/
def parseFloatJS (s : List Char) : Option Rat :=
  match s with
  | '-' :: rest => (parseFloatCore rest).map fun r => -r
  | '+' :: rest => parseFloatCore rest
  | _ => parseFloatCore s

-- The state of one product-import batch.

/-- The slice of a products row written by the import. -/
structure ProductRowCSV where
  name : List Char
  quantity : Int
  price : Rat
deriving DecidableEq, Repr

/-- The mutable state of the import loop: the created products, the
lower-cased known-names set, and the counters (errorsCount is the length
of the errors array, which also collects image warnings). -/
structure ImportState where
  products : List ProductRowCSV
  existingNames : List (List Char)
  success : Nat
  failed : Nat
  skipped : Nat
  errorsCount : Nat
deriving DecidableEq, Repr

/-- The column indices computed from the header (indexOf, so -1 when a
column is absent). -/
structure ColIdx where
  nameIdx : Int
  quantityIdx : Int
  priceIdx : Int
  categoriesIdx : Int
  imagesIdx : Int
deriving DecidableEq, Repr

/-- Outcomes of the external calls a row can make: the product insert,
the category find-or-create-and-link phase, and the image insert. -/
structure RowExt where
  productOk : Bool
  categoryOk : Bool
  imageOk : Bool
deriving DecidableEq, Repr

/-- All external calls succeed. -/
def defaultRowExt : RowExt := ⟨true, true, true⟩

/-- The catch branch of the row loop: failed++ and one error message. -/
def failRow (st : ImportState) : ImportState :=
  { st with failed := st.failed + 1, errorsCount := st.errorsCount + 1 }

/-- One iteration of the row loop of POST /products/import
(src/models/product/csv_routes.ts, lines 126-287).  Every throw inside
the try block lands in failRow; the duplicate check lands in the skipped
counter and continues; on success the product is appended and its
lower-cased name recorded before the category and image phases, so a
later category failure (which fails the row) keeps the inserted product;
an image failure only appends a warning message. -/
def processRow (idx : ColIdx) (ext : RowExt) (st : ImportState)
    (line : List Char) : ImportState :=
  let values := parseCSVLine line
  if values.length < 3 then failRow st
  else
    let name := fieldAt values idx.nameIdx
    let quantityStr := fieldAt values idx.quantityIdx
    let priceStr := fieldAt values idx.priceIdx
    let categoriesStr := fieldAt values idx.categoriesIdx
    let imagesStr := fieldAt values idx.imagesIdx
    if name.isEmpty then failRow st
    else if st.existingNames.any fun x => decide (x = toLowerChars name) then
      { st with skipped := st.skipped + 1, errorsCount := st.errorsCount + 1 }
    else
      match parseIntJS quantityStr with
      | none => failRow st
      | some quantity =>
        if quantity < 0 then failRow st
        else
          match parseFloatJS priceStr with
          | none => failRow st
          | some price =>
            if price ≤ 0 then failRow st
            else if ext.productOk = false then failRow st
            else
              let st1 := { st with
                products := st.products ++ [⟨name, quantity, price⟩],
                existingNames := st.existingNames ++ [toLowerChars name] }
              if ¬ categoriesStr.isEmpty ∧ ext.categoryOk = false then failRow st1
              else
                let imageTokens := ((splitOnChar ';' imagesStr).map trimChars).filter
                  fun u => !u.isEmpty
                let st2 :=
                  if ¬ imagesStr.isEmpty ∧ ¬ imageTokens.isEmpty ∧ ext.imageOk = false
                  then { st1 with errorsCount := st1.errorsCount + 1 }
                  else st1
                { st2 with success := st2.success + 1 }

/-- The row loop: one RowExt per row, all-success when exts runs out. -/
def runRows (idx : ColIdx) : List RowExt → List (List Char) → ImportState →
    ImportState
  | _, [], st => st
  | [], line :: rest, st =>
    runRows idx [] rest (processRow idx defaultRowExt st line)
  | e :: es, line :: rest, st =>
    runRows idx es rest (processRow idx e st line)

/-- The required header columns of POST /products/import
(csv_routes.ts line 90). -/
def requiredHeadersProducts : List (List Char) :=
  ["name".toList, "quantity".toList, "price".toList]

/-- The required header columns of POST /inventory/import/products
(csv-routes.ts line 146). -/
def requiredHeadersInventoryProducts : List (List Char) :=
  ["product name".toList, "price".toList]

/-- Header normalisation: parse the header line, lower-case and trim
each column name. -/
def processHeader (headerLine : List Char) : List (List Char) :=
  (parseCSVLine headerLine).map fun h => trimChars (toLowerChars h)

/-- The required columns absent from the header. -/
def missingHeaders (required headers : List (List Char)) : List (List Char) :=
  required.filter fun h => !(headers.any fun x => decide (x = h))

/-- POST /products/import (src/models/product/csv_routes.ts, lines
75-298): trim the body, split into non-blank lines, reject fewer than
two lines, validate the header, compute column indices, then run the
row loop over the data lines.  existingProductNames is the up-front
select of the caller's product names; exts supplies each row's external
call outcomes. -/
def importProducts (exts : List RowExt)
    (existingProductNames : List (List Char)) (csv : List Char) :
    Except ApiError ImportState :=
  let csvText := trimChars csv
  let lines := (splitLines csvText).filter fun l => !(trimChars l).isEmpty
  if lines.length < 2 then .error .validation
  else
    let headers := processHeader (lines.headD [])
    if ¬ (missingHeaders requiredHeadersProducts headers).isEmpty then
      .error .validation
    else
      let idx : ColIdx :=
        ⟨indexOfJS headers "name".toList, indexOfJS headers "quantity".toList,
         indexOfJS headers "price".toList, indexOfJS headers "categories".toList,
         indexOfJS headers "images".toList⟩
      let st0 : ImportState :=
        ⟨[], existingProductNames.map toLowerChars, 0, 0, 0, 0⟩
      .ok (runRows idx exts (lines.drop 1) st0)

/-- The number of non-blank data lines after the header of a CSV body,
as delimited by the import. -/
def dataLineCount (csv : List Char) : Nat :=
  ((splitLines (trimChars csv)).filter fun l => !(trimChars l).isEmpty).length - 1

end CSV

namespace Inventory

/-- One row of the inventory_periods table (database.sql): status is the
text column holding active or closed, end_date is nullable. -/
structure PeriodRow where
  id : Nat
  owner : String
  name : String
  start_date : String
  end_date : Option String
  status : String
  notes : Option String
deriving DecidableEq, Repr

/-- The first statement of createPeriod (models/inventory/service.ts,
lines 216-220): update inventory_periods set status = closed,
end_date = today where owner_id = owner and status = active. -/
def closeActivePeriods (today owner : String) (db : List PeriodRow) :
    List PeriodRow :=
  db.map fun r =>
    if r.owner = owner ∧ r.status = "active" then
      { r with status := "closed", end_date := some today }
    else r

/-- Request body of POST /inventory/periods (PeriodInputSchema). -/
structure PeriodInput where
  name : String
  start_date : String
  notes : Option String

/-- createPeriod (models/inventory/service.ts, lines 204-237): close any
active period of the owner, then insert the new period with status
active and a database-generated fresh id.  Returns the new table
contents and the inserted row. -/
def createPeriod (owner today : String) (newId : Nat) (input : PeriodInput)
    (db : List PeriodRow) : List PeriodRow × PeriodRow :=
  let db1 := closeActivePeriods today owner db
  let newRow : PeriodRow :=
    { id := newId, owner := owner, name := input.name,
      start_date := input.start_date, end_date := none,
      status := "active", notes := input.notes }
  (db1 ++ [newRow], newRow)

/-- One row of the inventory_records table; the schema has a unique
constraint on (product_id, period_id). -/
structure RecordRow where
  id : Nat
  product_id : Nat
  period_id : Nat
  quantity : Int
  counted_at : String
  notes : Option String
deriving DecidableEq, Repr

/-- Upsert of addInventoryRecord (models/inventory/service.ts, lines
279-291): on conflict with the (product_id, period_id) key the existing
row's quantity, notes and counted_at are overwritten, otherwise a fresh
row is inserted. -/
def upsertRecord (db : List RecordRow) (newId periodId productId : Nat)
    (quantity : Int) (notes : Option String) (now : String) :
    List RecordRow :=
  if db.any fun r => decide (r.product_id = productId ∧ r.period_id = periodId) then
    db.map fun r =>
      if r.product_id = productId ∧ r.period_id = periodId then
        { r with quantity := quantity, notes := notes, counted_at := now }
      else r
  else
    db ++ [{ id := newId, product_id := productId, period_id := periodId,
             quantity := quantity, counted_at := now, notes := notes }]

/-- addInventoryRecord (models/inventory/service.ts, lines 256-295):
verify that the period exists and belongs to the caller, then upsert the
record by the (product, period) natural key. -/
def addInventoryRecord (user : String) (periods : List PeriodRow)
    (records : List RecordRow) (newId periodId productId : Nat)
    (quantity : Int) (notes : Option String) (now : String) :
    Except ApiError (List RecordRow) :=
  match periods.find? fun p => decide (p.id = periodId ∧ p.owner = user) with
  | none => .error .notFound
  | some _ =>
    .ok (upsertRecord records newId periodId productId quantity notes now)

end Inventory

namespace Images

/-- The slice of a products row that the image service reads (id and
owner, via the ownership check select). -/
structure ProductRef where
  id : Nat
  owner : String
deriving DecidableEq, Repr

/-- One row of the product_images table. -/
structure ImageRow where
  id : Nat
  product_id : Nat
  image_url : String
  display_order : Nat
deriving DecidableEq, Repr

/-- The state touched by the image operations: the products table, the
product_images table and the external object store (paths of stored
objects). -/
structure ImgState where
  products : List ProductRef
  images : List ImageRow
  stored : List String
deriving DecidableEq, Repr

/-- The image-count query of the 10-image cap (select count eq
product_id). -/
def countImages (images : List ImageRow) (productId : Nat) : Nat :=
  (images.filter fun r => decide (r.product_id = productId)).length

/-- The next display_order (service.ts: select display_order desc limit
1, then lastImage ? lastImage.display_order + 1 : 0). -/
def nextDisplayOrder (images : List ImageRow) (productId : Nat) : Nat :=
  match ((images.filter fun r => decide (r.product_id = productId)).map
      fun r => r.display_order).max? with
  | none => 0
  | some m => m + 1

/-- addProductImage (upload variant, models/product/service.ts draft,
lines 248-320): ownership check, 10-image cap, storage upload, then row
insert.  The outcomes of the two external calls (storage upload and row
insert) are passed in as booleans, and filePath and publicUrl stand for
the generated file name and the issued public URL. -/
def addProductImage (user : String) (st : ImgState) (productId : Nat)
    (filePath publicUrl : String) (uploadFails insertFails : Bool)
    (newImageId : Nat) : ImgState × Except ApiError Unit :=
  match st.products.find? fun p => decide (p.id = productId ∧ p.owner = user) with
  | none => (st, .error .notFound)
  | some _ =>
    let count := countImages st.images productId
    if count ≠ 0 ∧ count ≥ 10 then (st, .error .validation)
    else if uploadFails then (st, .error .external)
    else
      let st1 := { st with stored := st.stored ++ [filePath] }
      if insertFails then (st1, .error .external)
      else
        ({ st1 with images := st1.images ++
            [{ id := newImageId, product_id := productId,
               image_url := publicUrl,
               display_order := nextDisplayOrder st.images productId }] },
         .ok ())

/-- addProductImageFromUrl (models/product/service.ts draft, lines
421-480): ownership check, URL validation (the new URL constructor is
external, its outcome is the urlValid boolean), 10-image cap, then row
insert. -/
def addProductImageFromUrl (user : String) (st : ImgState)
    (productId : Nat) (imageUrl : String) (urlValid insertFails : Bool)
    (newImageId : Nat) : ImgState × Except ApiError Unit :=
  match st.products.find? fun p => decide (p.id = productId ∧ p.owner = user) with
  | none => (st, .error .notFound)
  | some _ =>
    if urlValid = false then (st, .error .validation)
    else
      let count := countImages st.images productId
      if count ≠ 0 ∧ count ≥ 10 then (st, .error .validation)
      else if insertFails then (st, .error .external)
      else
        ({ st with images := st.images ++
            [{ id := newImageId, product_id := productId,
               image_url := imageUrl,
               display_order := nextDisplayOrder st.images productId }] },
         .ok ())

/-- Insertion step of the sort used to model the order(display_order)
clause of the compaction query. -/
def insertByOrder (a : ImageRow) : List ImageRow → List ImageRow
  | [] => [a]
  | b :: t =>
    if a.display_order ≤ b.display_order then a :: b :: t
    else b :: insertByOrder a t

/-- Sort by ascending display_order (the order(display_order) clause). -/
def sortByOrder : List ImageRow → List ImageRow
  | [] => []
  | a :: t => insertByOrder a (sortByOrder t)

/-- deleteProductImage (models/product/service.ts draft, lines 323-385):
ownership check, locate the image, best-effort storage removal (external,
touches no table row), delete the row by id, then decrement the
display_order of every remaining image of the product whose order is
greater than the deleted one, one update statement per selected row. -/
def deleteProductImage (user : String) (st : ImgState)
    (productId imageId : Nat) : ImgState × Except ApiError Unit :=
  match st.products.find? fun p => decide (p.id = productId ∧ p.owner = user) with
  | none => (st, .error .notFound)
  | some _ =>
    match st.images.find? fun r => decide (r.id = imageId ∧ r.product_id = productId) with
    | none => (st, .error .notFound)
    | some image =>
      let db1 := st.images.filter fun r => decide (¬ r.id = imageId)
      let remaining := sortByOrder (db1.filter fun r =>
        decide (r.product_id = productId ∧ image.display_order < r.display_order))
      let final := remaining.foldl
        (fun acc img => acc.map fun r =>
          if r.id = img.id then { r with display_order := img.display_order - 1 }
          else r) db1
      ({ st with images := final }, .ok ())

end Images

namespace Catalog

/-- One row of the products table as touched by createProduct. -/
structure ProductRow where
  id : Nat
  name : String
  price : Int
  quantity : Int
  owner : String
deriving DecidableEq, Repr

/-- One row of the categories table (id is the primary key). -/
structure CategoryRow where
  id : Nat
  name : String
  owner : String
deriving DecidableEq, Repr

/-- One row of the product_categories link table (the service also
writes the owner column). -/
structure LinkRow where
  product_id : Nat
  category_id : Nat
  owner : String
deriving DecidableEq, Repr

/-- The tables touched by createProduct. -/
structure CatalogState where
  products : List ProductRow
  categories : List CategoryRow
  links : List LinkRow
deriving DecidableEq, Repr

/-- Request body of POST /products (ProductInputSchema). -/
structure ProductInput where
  name : String
  price : Int
  quantity : Int
  categoryIds : Option (List Nat)

/-- The ownership query of createProduct (select id from categories
where id in categoryIds and owner_id = user). -/
def ownedCategories (st : CatalogState) (user : String)
    (catIds : List Nat) : List CategoryRow :=
  st.categories.filter fun c =>
    (catIds.any fun cid => decide (cid = c.id)) && decide (c.owner = user)

/-- createProduct (src/models/product/service.ts, lines 190-242):
validate ownership of every supplied category id before writing
anything; insert the product; insert the link rows; if the link insert
fails, delete the just-inserted product and surface the error.  The
outcomes of the two fallible external inserts are the two booleans. -/
def createProduct (user : String) (newId : Nat)
    (productInsertFails linkInsertFails : Bool) (input : ProductInput)
    (st : CatalogState) : CatalogState × Except ApiError Nat :=
  let catIds := input.categoryIds.getD []
  if catIds.length ≠ 0 ∧ (ownedCategories st user catIds).length ≠ catIds.length
  then (st, .error .validation)
  else if productInsertFails then (st, .error .external)
  else
    let st1 := { st with products := st.products ++
      [{ id := newId, name := input.name, price := input.price,
         quantity := input.quantity, owner := user }] }
    if catIds.length ≠ 0 then
      if linkInsertFails then
        ({ st1 with products := st1.products.filter fun q => decide (¬ q.id = newId) },
         .error .external)
      else
        ({ st1 with links := st1.links ++
            catIds.map fun cid => { product_id := newId, category_id := cid, owner := user } },
         .ok newId)
    else (st1, .ok newId)

end Catalog

namespace CSV

-- Step lemmas for the parser in the in-quotes state.

/-- Inside quotes any character other than a double quote (in particular
a comma) is appended to the current field literally. -/
theorem parseAux_inQuotes_literal (c : Char) (rest cur : List Char)
    (hc : c ≠ '"') :
    parseCSVLineAux (c :: rest) cur true
      = parseCSVLineAux rest (cur ++ [c]) true := by
  cases rest with
  | nil => simp [parseCSVLineAux, hc]
  | cons d r => simp [parseCSVLineAux, hc]

/-- Inside quotes a doubled double quote decodes to a single literal
double quote appended to the current field. -/
theorem parseAux_escaped_quote (rest cur : List Char) :
    parseCSVLineAux ('"' :: '"' :: rest) cur true
      = parseCSVLineAux rest (cur ++ ['"']) true := by
  simp [parseCSVLineAux]

/-- Inside quotes a double quote not followed by another double quote
closes the quoted region. -/
theorem parseAux_close_quote (t cur : List Char)
    (ht : t.head? ≠ some '"') :
    parseCSVLineAux ('"' :: t) cur true = parseCSVLineAux t cur false := by
  cases t with
  | nil => simp [parseCSVLineAux]
  | cons d r =>
    have hd : d ≠ '"' := by simpa using ht
    simp [parseCSVLineAux, hd]

/-- Running the parser in the in-quotes state over an escaped field
followed by the closing quote accumulates exactly the original field. -/
theorem parseAux_escapeQuotes_run (f : List Char) :
    ∀ (t cur : List Char), t.head? ≠ some '"' →
      parseCSVLineAux (escapeQuotes f ++ '"' :: t) cur true
        = parseCSVLineAux t (cur ++ f) false := by
  induction f with
  | nil =>
    intro t cur ht
    simpa [escapeQuotes] using parseAux_close_quote t cur ht
  | cons a f ih =>
    intro t cur ht
    by_cases ha : a = '"'
    · subst ha
      rw [show escapeQuotes ('"' :: f) = '"' :: '"' :: escapeQuotes f from by
            simp [escapeQuotes],
        List.cons_append, List.cons_append, parseAux_escaped_quote, ih t _ ht]
      simp
    · rw [show escapeQuotes (a :: f) = a :: escapeQuotes f from by
            simp [escapeQuotes, ha],
        List.cons_append, parseAux_inQuotes_literal a _ cur ha, ih t _ ht]
      simp

/-- Parsing an encoded nonempty field list from the start-of-field state
yields the fields, the first one prefixed by the accumulator. -/
theorem parseAux_encodeFields_cons (fs : List (List Char)) :
    ∀ (f cur : List Char),
      parseCSVLineAux (encodeFields (f :: fs)) cur false
        = (cur ++ f) :: fs := by
  induction fs with
  | nil =>
    intro f cur
    simp only [encodeFields, quoteField]
    have h1 : parseCSVLineAux ('"' :: (escapeQuotes f ++ ['"'])) cur false
        = parseCSVLineAux (escapeQuotes f ++ ['"']) cur true := by
      cases hE : escapeQuotes f ++ ['"'] with
      | nil => simp at hE
      | cons z zs => simp [parseCSVLineAux]
    rw [h1, show (['"'] : List Char) = '"' :: [] from rfl,
      parseAux_escapeQuotes_run f [] cur (by simp)]
    simp [parseCSVLineAux]
  | cons g fs ih =>
    intro f cur
    have hE : encodeFields (f :: g :: fs)
        = '"' :: (escapeQuotes f ++ ('"' :: ',' :: encodeFields (g :: fs))) := by
      simp [encodeFields, quoteField]
    rw [hE]
    have h1 : parseCSVLineAux
        ('"' :: (escapeQuotes f ++ ('"' :: ',' :: encodeFields (g :: fs)))) cur false
        = parseCSVLineAux (escapeQuotes f ++ ('"' :: ',' :: encodeFields (g :: fs))) cur true := by
      cases hcons : escapeQuotes f ++ ('"' :: ',' :: encodeFields (g :: fs)) with
      | nil => simp at hcons
      | cons z zs => simp [parseCSVLineAux]
    rw [h1, parseAux_escapeQuotes_run f _ cur (by simp)]
    have h2 : parseCSVLineAux (',' :: encodeFields (g :: fs)) (cur ++ f) false
        = (cur ++ f) :: parseCSVLineAux (encodeFields (g :: fs)) [] false := by
      cases hcons : encodeFields (g :: fs) with
      | nil => simp [parseCSVLineAux]
      | cons z zs => simp [parseCSVLineAux]
    rw [h2, ih g []]
    simp

/-- C8: parseCSVLine treats a comma inside a double-quoted field as a
literal character and decodes each doubled double quote inside a quoted
field to one literal double quote; on the line consisting of the single
quoted field a-quote-quote-b the parser yields the single field a-quote-b. -/
theorem parseCSVLine_quoted_comma_and_escapes :
    (∀ rest cur : List Char,
        parseCSVLineAux (',' :: rest) cur true
          = parseCSVLineAux rest (cur ++ [',']) true) ∧
    (∀ rest cur : List Char,
        parseCSVLineAux ('"' :: '"' :: rest) cur true
          = parseCSVLineAux rest (cur ++ ['"']) true) ∧
    parseCSVLine ['"', 'a', '"', '"', 'b', '"'] = [['a', '"', 'b']] :=
  ⟨fun rest cur => parseAux_inQuotes_literal ',' rest cur (by decide),
   fun rest cur => parseAux_escaped_quote rest cur,
   by decide⟩

/-- C9 counterexample: the empty list of fields does not round trip, since
the parser always yields at least one field — encoding the empty field
list gives the empty line, which parses to one empty field. -/
theorem encodeFields_nil_not_round_trip :
    parseCSVLine (encodeFields ([] : List (List Char))) = [[]] ∧
    parseCSVLine (encodeFields ([] : List (List Char)))
      ≠ ([] : List (List Char)) := by
  exact ⟨by decide, by decide⟩

/-- C9 (amended to nonempty field lists): for every nonempty list of
fields without newline characters, quoting each field with internal
quotes doubled, joining with commas and parsing recovers exactly the
original fields. -/
theorem parseCSVLine_encodeFields_round_trip (fs : List (List Char))
    (hne : fs ≠ []) (_hnl : ∀ f ∈ fs, ('\n' : Char) ∉ f) :
    parseCSVLine (encodeFields fs) = fs := by
  cases fs with
  | nil => exact absurd rfl hne
  | cons f fs => simpa using parseAux_encodeFields_cons fs f []

/-- C9 witness: the round trip at a concrete field list containing an
internal quote and a comma. -/
theorem parseCSVLine_encodeFields_round_trip_witness :
    ([['a', '"', 'b'], [',']] : List (List Char)) ≠ [] ∧
    parseCSVLine (encodeFields [['a', '"', 'b'], [',']])
      = [['a', '"', 'b'], [',']] :=
  ⟨by decide,
   parseCSVLine_encodeFields_round_trip [['a', '"', 'b'], [',']]
     (by decide) (by decide)⟩

/-- C6 counterexample: the products import rejects a header holding
name and price but no quantity column, reporting quantity as missing,
although the claim says such a header is accepted. -/
theorem products_import_header_without_quantity_rejected :
    importProducts [] [] "Name,Price\nWidget,5.00".toList
      = .error .validation ∧
    missingHeaders requiredHeadersProducts (processHeader "Name,Price".toList)
      = ["quantity".toList] :=
  ⟨by decide, by decide⟩

/-- C6 (amended): POST /products/import requires the name, quantity and
price columns and accepts a normalised header exactly when all three
are present; the inventory-module product import requires only the
product name and price columns. -/
theorem import_header_requirements (headers : List (List Char)) :
    ((missingHeaders requiredHeadersProducts headers).isEmpty = true ↔
      ("name".toList ∈ headers ∧ "quantity".toList ∈ headers ∧
        "price".toList ∈ headers)) ∧
    ((missingHeaders requiredHeadersInventoryProducts headers).isEmpty = true ↔
      ("product name".toList ∈ headers ∧ "price".toList ∈ headers)) := by
  constructor <;>
    simp [missingHeaders, requiredHeadersProducts,
      requiredHeadersInventoryProducts, List.isEmpty_iff,
      List.filter_eq_nil_iff, List.any_eq_true]

/-- C7: a data row with enough columns whose trimmed name lower-cases
to an already known name only increments the skipped counter and the
message list, leaving products, names and the other counters unchanged,
and processing continues; on the concrete two-row Widget batch exactly
one product is created and the second row is skipped. -/
theorem import_duplicate_rows_skipped :
    (∀ (idx : ColIdx) (ext : RowExt) (st : ImportState) (line : List Char),
      ¬ (parseCSVLine line).length < 3 →
      (fieldAt (parseCSVLine line) idx.nameIdx).isEmpty = false →
      (st.existingNames.any fun x =>
        decide (x = toLowerChars (fieldAt (parseCSVLine line) idx.nameIdx)))
        = true →
      processRow idx ext st line
        = { st with skipped := st.skipped + 1,
                    errorsCount := st.errorsCount + 1 }) ∧
    importProducts [] [] "name,quantity,price\nWidget,1,5.00\nWidget,2,6.00".toList
      = .ok ⟨[⟨"Widget".toList, 1, mkRat 5 1⟩], ["widget".toList], 1, 0, 1, 1⟩ := by
  constructor
  · intro idx ext st line h1 h2 h3
    simp only [processRow]
    rw [if_neg h1, if_neg (by simp [h2]), if_pos h3]
  · decide

/-- C7 witness: the duplicate Widget row against a state already
holding the name widget is skipped without a write. -/
theorem import_duplicate_rows_skipped_witness :
    processRow ⟨0, 1, 2, -1, -1⟩ defaultRowExt
        ⟨[⟨"Widget".toList, 1, mkRat 5 1⟩], ["widget".toList], 1, 0, 0, 0⟩
        "Widget,2,6.00".toList
      = ⟨[⟨"Widget".toList, 1, mkRat 5 1⟩], ["widget".toList], 1, 0, 1, 1⟩ :=
  import_duplicate_rows_skipped.1 ⟨0, 1, 2, -1, -1⟩ defaultRowExt
    ⟨[⟨"Widget".toList, 1, mkRat 5 1⟩], ["widget".toList], 1, 0, 0, 0⟩
    "Widget,2,6.00".toList (by decide) (by decide) (by decide)

/-- Each processed row increments exactly one of the three counters and
never decreases any of them. -/
theorem processRow_counters (idx : ColIdx) (ext : RowExt)
    (st : ImportState) (line : List Char) :
    (processRow idx ext st line).success + (processRow idx ext st line).failed
        + (processRow idx ext st line).skipped
      = st.success + st.failed + st.skipped + 1 ∧
    st.success ≤ (processRow idx ext st line).success ∧
    st.failed ≤ (processRow idx ext st line).failed ∧
    st.skipped ≤ (processRow idx ext st line).skipped := by
  unfold processRow failRow
  repeat' split
  all_goals simp_arith
  all_goals (repeat' split)
  all_goals simp_arith

/-- The row loop adds one counted outcome per data line. -/
theorem runRows_sum (idx : ColIdx) (lines : List (List Char)) :
    ∀ (exts : List RowExt) (st : ImportState),
    (runRows idx exts lines st).success + (runRows idx exts lines st).failed
        + (runRows idx exts lines st).skipped
      = st.success + st.failed + st.skipped + lines.length := by
  induction lines with
  | nil => intro exts st; cases exts <;> simp [runRows]
  | cons l ls ih =>
    intro exts st
    cases exts with
    | nil =>
      have hstep := (processRow_counters idx defaultRowExt st l).1
      have hrec := ih [] (processRow idx defaultRowExt st l)
      simp only [runRows, List.length_cons]
      omega
    | cons e es =>
      have hstep := (processRow_counters idx e st l).1
      have hrec := ih es (processRow idx e st l)
      simp only [runRows, List.length_cons]
      omega

/-- C10: every processed row increments exactly one of the success,
failed and skipped counters and the counters never decrease; and a
completed import reports counters summing to the number of non-blank
data lines after the header. -/
theorem import_counters_partition :
    (∀ (idx : ColIdx) (ext : RowExt) (st : ImportState) (line : List Char),
      (processRow idx ext st line).success + (processRow idx ext st line).failed
          + (processRow idx ext st line).skipped
        = st.success + st.failed + st.skipped + 1 ∧
      st.success ≤ (processRow idx ext st line).success ∧
      st.failed ≤ (processRow idx ext st line).failed ∧
      st.skipped ≤ (processRow idx ext st line).skipped) ∧
    (∀ (exts : List RowExt) (existingProductNames : List (List Char))
        (csv : List Char) (st : ImportState),
      importProducts exts existingProductNames csv = .ok st →
      st.success + st.failed + st.skipped = dataLineCount csv) := by
  refine ⟨processRow_counters, ?_⟩
  intro exts existingProductNames csv st h
  simp only [importProducts] at h
  split at h
  · simp at h
  · split at h
    · simp at h
    · have hst := Except.ok.inj h
      subst hst
      rw [runRows_sum]
      simp only [dataLineCount, List.length_drop]
      omega

/-- C10 witness: the concrete two-row Widget batch reports one success
and one skip, summing to its two data lines. -/
theorem import_counters_partition_witness :
    (⟨[⟨"Widget".toList, 1, mkRat 5 1⟩], ["widget".toList], 1, 0, 1, 1⟩ :
        ImportState).success
      + (⟨[⟨"Widget".toList, 1, mkRat 5 1⟩], ["widget".toList], 1, 0, 1, 1⟩ :
        ImportState).failed
      + (⟨[⟨"Widget".toList, 1, mkRat 5 1⟩], ["widget".toList], 1, 0, 1, 1⟩ :
        ImportState).skipped
      = dataLineCount "name,quantity,price\nWidget,1,5.00\nWidget,2,6.00".toList :=
  import_counters_partition.2 [] []
    "name,quantity,price\nWidget,1,5.00\nWidget,2,6.00".toList
    ⟨[⟨"Widget".toList, 1, mkRat 5 1⟩], ["widget".toList], 1, 0, 1, 1⟩
    (by decide)

end CSV

namespace Inventory

/-- C1: after createPeriod, the filter for active periods of the owner
returns exactly the newly inserted row; every previously active row of
the owner is closed in place with the end date stamped; and the close
update is the identity when the owner had no active period. -/
theorem createPeriod_single_active (owner today : String) (newId : Nat)
    (input : PeriodInput) (db : List PeriodRow) :
    ((createPeriod owner today newId input db).1.filter
        (fun r => decide (r.owner = owner ∧ r.status = "active"))
      = [(createPeriod owner today newId input db).2]) ∧
    (∀ (i : Nat) (r : PeriodRow), db[i]? = some r →
      r.owner = owner → r.status = "active" →
      (closeActivePeriods today owner db)[i]?
        = some { r with status := "closed", end_date := some today }) ∧
    ((∀ r ∈ db, ¬(r.owner = owner ∧ r.status = "active")) →
      closeActivePeriods today owner db = db) := by
  refine ⟨?_, ?_, ?_⟩
  · show ((closeActivePeriods today owner db ++ [_]).filter _) = _
    rw [List.filter_append]
    have h1 : (closeActivePeriods today owner db).filter
        (fun r => decide (r.owner = owner ∧ r.status = "active")) = [] := by
      rw [List.filter_eq_nil_iff]
      intro a ha
      rcases List.mem_map.1 ha with ⟨r, _, hr⟩
      by_cases hcond : r.owner = owner ∧ r.status = "active"
      · rw [if_pos hcond] at hr
        simp [← hr]
      · rw [if_neg hcond] at hr
        simpa [← hr] using hcond
    rw [h1]
    simp [createPeriod]
  · intro i r hi hown hstat
    unfold closeActivePeriods
    rw [List.getElem?_map, hi]
    simp [hown, hstat]
  · intro hnone
    unfold closeActivePeriods
    conv_rhs => rw [← List.map_id db]
    exact List.map_congr_left fun r hr => by
      rw [if_neg (hnone r hr)]
      rfl

/-- C1 witness: a concrete table with one active period of the owner, an
active period of another owner and an old closed period. -/
theorem createPeriod_single_active_witness :
    ((createPeriod "u" "2025-02-01" 4 ⟨"Feb", "2025-02-01", none⟩
        [⟨1, "u", "Jan", "2025-01-01", none, "active", none⟩,
         ⟨2, "v", "X", "2025-01-02", none, "active", none⟩,
         ⟨3, "u", "Old", "2024-12-01", some "2024-12-31", "closed", none⟩]).1.filter
        (fun r => decide (r.owner = "u" ∧ r.status = "active"))
      = [⟨4, "u", "Feb", "2025-02-01", none, "active", none⟩]) ∧
    ((closeActivePeriods "2025-02-01" "u"
        [⟨1, "u", "Jan", "2025-01-01", none, "active", none⟩,
         ⟨2, "v", "X", "2025-01-02", none, "active", none⟩,
         ⟨3, "u", "Old", "2024-12-01", some "2024-12-31", "closed", none⟩])[0]?
      = some ⟨1, "u", "Jan", "2025-01-01", some "2025-02-01", "closed", none⟩) ∧
    (closeActivePeriods "2025-02-01" "u"
        [⟨3, "u", "Old", "2024-12-01", some "2024-12-31", "closed", none⟩]
      = [⟨3, "u", "Old", "2024-12-01", some "2024-12-31", "closed", none⟩]) :=
  ⟨(createPeriod_single_active "u" "2025-02-01" 4 ⟨"Feb", "2025-02-01", none⟩ _).1,
   (createPeriod_single_active "u" "2025-02-01" 4 ⟨"Feb", "2025-02-01", none⟩ _).2.1
     0 ⟨1, "u", "Jan", "2025-01-01", none, "active", none⟩ rfl rfl rfl,
   (createPeriod_single_active "u" "2025-02-01" 4 ⟨"Feb", "2025-02-01", none⟩ _).2.2
     (by decide)⟩

/-- After an upsert the number of rows matching the (product, period)
key is the old count, or one if the key was absent. -/
theorem upsertRecord_pair_count (db : List RecordRow)
    (newId Y P : Nat) (q : Int) (n : Option String) (t : String) :
    ((upsertRecord db newId Y P q n t).filter
        (fun r => decide (r.product_id = P ∧ r.period_id = Y))).length
      = max 1 ((db.filter
          (fun r => decide (r.product_id = P ∧ r.period_id = Y))).length) := by
  unfold upsertRecord
  by_cases h : db.any (fun r => decide (r.product_id = P ∧ r.period_id = Y)) = true
  · rw [if_pos h]
    rw [List.filter_map]
    have hcong : db.filter
        ((fun r => decide (r.product_id = P ∧ r.period_id = Y)) ∘
          (fun r => if r.product_id = P ∧ r.period_id = Y then
            { r with quantity := q, notes := n, counted_at := t } else r))
        = db.filter (fun r => decide (r.product_id = P ∧ r.period_id = Y)) := by
      apply List.filter_congr
      intro a _
      by_cases hpa : a.product_id = P ∧ a.period_id = Y
      · rw [Function.comp_apply, if_pos hpa]
      · rw [Function.comp_apply, if_neg hpa]
    rw [hcong, List.length_map]
    rcases List.any_eq_true.1 h with ⟨r, hr, hpr⟩
    have : 0 < (db.filter
        (fun r => decide (r.product_id = P ∧ r.period_id = Y))).length :=
      List.length_pos.2 (List.ne_nil_of_mem (List.mem_filter.2 ⟨hr, hpr⟩))
    omega
  · rw [if_neg h]
    have hnil : db.filter
        (fun r => decide (r.product_id = P ∧ r.period_id = Y)) = [] := by
      rw [List.filter_eq_nil_iff]
      intro a ha hpa
      exact h (List.any_eq_true.2 ⟨a, ha, hpa⟩)
    rw [List.filter_append, hnil]
    simp

/-- Every row matching the key after an upsert carries the newly written
quantity, notes and timestamp. -/
theorem upsertRecord_pair_fields (db : List RecordRow)
    (newId Y P : Nat) (q : Int) (n : Option String) (t : String) :
    ∀ r ∈ (upsertRecord db newId Y P q n t).filter
        (fun r => decide (r.product_id = P ∧ r.period_id = Y)),
      r.quantity = q ∧ r.notes = n ∧ r.counted_at = t := by
  intro r hr
  unfold upsertRecord at hr
  by_cases h : db.any (fun r => decide (r.product_id = P ∧ r.period_id = Y)) = true
  · rw [if_pos h, List.filter_map] at hr
    rcases List.mem_map.1 hr with ⟨r0, hr0, hup⟩
    have hp0 : r0.product_id = P ∧ r0.period_id = Y := by
      have := (List.mem_filter.1 hr0).2
      by_cases hpa : r0.product_id = P ∧ r0.period_id = Y
      · exact hpa
      · simp [hpa] at this
    rw [if_pos hp0] at hup
    simp [← hup]
  · rw [if_neg h, List.filter_append] at hr
    have hnil : db.filter
        (fun r => decide (r.product_id = P ∧ r.period_id = Y)) = [] := by
      rw [List.filter_eq_nil_iff]
      intro a ha hpa
      exact h (List.any_eq_true.2 ⟨a, ha, hpa⟩)
    rw [hnil] at hr
    simp at hr
    simp [hr]

/-- C2: with the period owned by the caller and at most one stored row
for the key (the unique constraint), two successive addInventoryRecord
calls for the same (product, period) pair both succeed, leave exactly
one row for the pair, and that row holds the later quantity and notes. -/
theorem addInventoryRecord_upsert_once (user : String)
    (periods : List PeriodRow) (records : List RecordRow)
    (newId1 newId2 P Y : Nat) (q1 q2 : Int) (n1 n2 : Option String)
    (t1 t2 : String) (pr : PeriodRow)
    (hp : periods.find? (fun x => decide (x.id = Y ∧ x.owner = user)) = some pr)
    (hc : (records.filter
        (fun r => decide (r.product_id = P ∧ r.period_id = Y))).length ≤ 1) :
    ∃ st1 st2,
      addInventoryRecord user periods records newId1 Y P q1 n1 t1 = .ok st1 ∧
      addInventoryRecord user periods st1 newId2 Y P q2 n2 t2 = .ok st2 ∧
      (st1.filter (fun r => decide (r.product_id = P ∧ r.period_id = Y))).length = 1 ∧
      (st2.filter (fun r => decide (r.product_id = P ∧ r.period_id = Y))).length = 1 ∧
      ∀ r ∈ st2.filter (fun r => decide (r.product_id = P ∧ r.period_id = Y)),
        r.quantity = q2 ∧ r.notes = n2 ∧ r.counted_at = t2 := by
  refine ⟨upsertRecord records newId1 Y P q1 n1 t1,
    upsertRecord (upsertRecord records newId1 Y P q1 n1 t1) newId2 Y P q2 n2 t2,
    ?_, ?_, ?_, ?_, ?_⟩
  · unfold addInventoryRecord
    rw [hp]
  · unfold addInventoryRecord
    rw [hp]
  · rw [upsertRecord_pair_count]
    omega
  · rw [upsertRecord_pair_count, upsertRecord_pair_count]
    omega
  · exact upsertRecord_pair_fields _ _ _ _ _ _ _

/-- C2 witness: one active period owned by the caller, an empty record
table, two successive writes for product 7 in period 5. -/
theorem addInventoryRecord_upsert_once_witness :
    ∃ st1 st2,
      addInventoryRecord "u" [⟨5, "u", "Jan", "2025-01-01", none, "active", none⟩]
        [] 100 5 7 3 none "t1" = .ok st1 ∧
      addInventoryRecord "u" [⟨5, "u", "Jan", "2025-01-01", none, "active", none⟩]
        st1 101 5 7 9 (some "recount") "t2" = .ok st2 ∧
      (st1.filter (fun r => decide (r.product_id = 7 ∧ r.period_id = 5))).length = 1 ∧
      (st2.filter (fun r => decide (r.product_id = 7 ∧ r.period_id = 5))).length = 1 ∧
      ∀ r ∈ st2.filter (fun r => decide (r.product_id = 7 ∧ r.period_id = 5)),
        r.quantity = 9 ∧ r.notes = some "recount" ∧ r.counted_at = "t2" :=
  addInventoryRecord_upsert_once "u" _ [] 100 101 7 5 3 9 none (some "recount")
    "t1" "t2" ⟨5, "u", "Jan", "2025-01-01", none, "active", none⟩
    (by decide) (by decide)

end Inventory

namespace Catalog

/-- C4: with category ids the primary key of the categories table, a
create request naming an unowned or missing category id fails with a
Validation error and leaves every table unchanged, whatever the insert
outcomes would have been; and when validation passes but the link
insert fails, the just-inserted product row is removed again and the
link error is surfaced, so the state is unchanged and no product
without its links remains. -/
theorem createProduct_validation_and_rollback (user : String)
    (newId : Nat) (input : ProductInput) (st : CatalogState)
    (ids : List Nat) (hin : input.categoryIds = some ids) (hne : ids ≠ []) :
    ((st.categories.map fun c => c.id).Nodup →
      ∀ cid ∈ ids, (∀ c ∈ st.categories, c.id = cid → c.owner ≠ user) →
      ∀ productInsertFails linkInsertFails : Bool,
      createProduct user newId productInsertFails linkInsertFails input st
        = (st, .error .validation)) ∧
    ((ownedCategories st user ids).length = ids.length →
      (∀ q ∈ st.products, q.id ≠ newId) →
      createProduct user newId false true input st
        = (st, .error .external)) := by
  have hne' : ids.length ≠ 0 := fun h0 => hne (List.length_eq_zero.1 h0)
  constructor
  · intro hndcat cid hcid hunowned productInsertFails linkInsertFails
    have hlen : (ownedCategories st user ids).length < ids.length := by
      have hsub : (ownedCategories st user ids).map (fun c => c.id)
          ⊆ ids.filter fun x => decide (¬ x = cid) := by
        intro x hx
        rcases List.mem_map.1 hx with ⟨c, hc, hcx⟩
        have hcfil := List.mem_filter.1 hc
        have hcin : c.id ∈ ids := by
          rcases (List.any_eq_true.1 (Bool.and_elim_left hcfil.2)) with ⟨y, hy, hyc⟩
          have hyz : y = c.id := by simpa using hyc
          rwa [← hyz]
        have howner : c.owner = user := by
          have hrt := Bool.and_elim_right hcfil.2
          simpa using hrt
        have hnecid : c.id ≠ cid := fun hh =>
          hunowned c hcfil.1 hh howner
        rw [← hcx]
        exact List.mem_filter.2 ⟨hcin, by simpa using hnecid⟩
      have hndo : ((ownedCategories st user ids).map fun c => c.id).Nodup :=
        hndcat.sublist (List.Sublist.map _ (List.filter_sublist _))
      have hle : ((ownedCategories st user ids).map fun c => c.id).length
          ≤ (ids.filter fun x => decide (¬ x = cid)).length :=
        (List.subperm_of_subset hndo hsub).length_le
      have hlt : (ids.filter fun x => decide (¬ x = cid)).length < ids.length := by
        apply List.length_filter_lt_length_iff_exists.2
        exact ⟨cid, hcid, by simp⟩
      have hml : ((ownedCategories st user ids).map fun c => c.id).length
          = (ownedCategories st user ids).length := List.length_map _ _
      omega
    unfold createProduct
    rw [hin]
    simp only [Option.getD_some]
    rw [if_pos ⟨hne', by omega⟩]
  · intro hval hfresh
    unfold createProduct
    rw [hin]
    simp only [Option.getD_some]
    rw [if_neg fun hcon => hcon.2 hval]
    rw [if_neg (by simp : ¬ (false : Bool) = true)]
    rw [if_pos hne']
    rw [if_pos trivial]
    have hfil : (st.products ++
        [({ id := newId, name := input.name, price := input.price,
            quantity := input.quantity, owner := user } : ProductRow)]).filter
          (fun q => decide (¬ q.id = newId)) = st.products := by
      rw [List.filter_append]
      have h1 : st.products.filter (fun q => decide (¬ q.id = newId))
          = st.products :=
        List.filter_eq_self.2 fun q hq => by simpa using hfresh q hq
      have h2 : ([({ id := newId, name := input.name, price := input.price,
                     quantity := input.quantity, owner := user } : ProductRow)]).filter
            (fun q => decide (¬ q.id = newId)) = [] := by simp
      rw [h1, h2, List.append_nil]
    rw [hfil]

/-- C4 witness: a category owned by another user makes the create fail
up front with no write; an owned category with a failing link insert
rolls the product back and surfaces the external error. -/
theorem createProduct_validation_and_rollback_witness :
    createProduct "u" 1 false false ⟨"w", 5, 0, some [5]⟩
        ⟨[], [⟨5, "c", "v"⟩], []⟩
      = (⟨[], [⟨5, "c", "v"⟩], []⟩, .error .validation) ∧
    createProduct "u" 1 false true ⟨"w", 5, 0, some [5]⟩
        ⟨[], [⟨5, "c", "u"⟩], []⟩
      = (⟨[], [⟨5, "c", "u"⟩], []⟩, .error .external) :=
  ⟨(createProduct_validation_and_rollback "u" 1 ⟨"w", 5, 0, some [5]⟩
      ⟨[], [⟨5, "c", "v"⟩], []⟩ [5] rfl (by decide)).1
      (by decide) 5 (by decide) (by decide) false false,
   (createProduct_validation_and_rollback "u" 1 ⟨"w", 5, 0, some [5]⟩
      ⟨[], [⟨5, "c", "u"⟩], []⟩ [5] rfl (by decide)).2
      (by decide) (by decide)⟩

end Catalog

namespace Images

/-- C5: for a product of the caller that already has ten images, both
the upload variant and the URL variant of add-image return a Validation
error and leave the state unchanged, whatever the external call outcomes
would have been, so the image count stays at ten and nothing is stored. -/
theorem add_image_rejected_at_cap (user : String) (st : ImgState)
    (productId : Nat) (p : ProductRef)
    (hp : st.products.find? (fun x => decide (x.id = productId ∧ x.owner = user))
      = some p)
    (hcount : countImages st.images productId = 10) :
    (∀ (filePath publicUrl : String) (uploadFails insertFails : Bool)
        (newImageId : Nat),
      addProductImage user st productId filePath publicUrl uploadFails
          insertFails newImageId
        = (st, .error .validation)) ∧
    (∀ (imageUrl : String) (urlValid insertFails : Bool) (newImageId : Nat),
      addProductImageFromUrl user st productId imageUrl urlValid
          insertFails newImageId
        = (st, .error .validation)) := by
  constructor
  · intro filePath publicUrl uploadFails insertFails newImageId
    unfold addProductImage
    rw [hp]
    simp [hcount]
  · intro imageUrl urlValid insertFails newImageId
    unfold addProductImageFromUrl
    rw [hp]
    cases urlValid <;> simp [hcount]

/-- C5 witness: a concrete product with exactly ten images; both add
variants reject with a Validation error and change nothing. -/
theorem add_image_rejected_at_cap_witness :
    addProductImage "u"
      ⟨[⟨1, "u"⟩],
       [⟨10, 1, "u0", 0⟩, ⟨11, 1, "u1", 1⟩, ⟨12, 1, "u2", 2⟩,
        ⟨13, 1, "u3", 3⟩, ⟨14, 1, "u4", 4⟩, ⟨15, 1, "u5", 5⟩,
        ⟨16, 1, "u6", 6⟩, ⟨17, 1, "u7", 7⟩, ⟨18, 1, "u8", 8⟩,
        ⟨19, 1, "u9", 9⟩], []⟩
      1 "path" "url" false false 20
      = (⟨[⟨1, "u"⟩],
          [⟨10, 1, "u0", 0⟩, ⟨11, 1, "u1", 1⟩, ⟨12, 1, "u2", 2⟩,
           ⟨13, 1, "u3", 3⟩, ⟨14, 1, "u4", 4⟩, ⟨15, 1, "u5", 5⟩,
           ⟨16, 1, "u6", 6⟩, ⟨17, 1, "u7", 7⟩, ⟨18, 1, "u8", 8⟩,
           ⟨19, 1, "u9", 9⟩], []⟩, .error .validation) ∧
    addProductImageFromUrl "u"
      ⟨[⟨1, "u"⟩],
       [⟨10, 1, "u0", 0⟩, ⟨11, 1, "u1", 1⟩, ⟨12, 1, "u2", 2⟩,
        ⟨13, 1, "u3", 3⟩, ⟨14, 1, "u4", 4⟩, ⟨15, 1, "u5", 5⟩,
        ⟨16, 1, "u6", 6⟩, ⟨17, 1, "u7", 7⟩, ⟨18, 1, "u8", 8⟩,
        ⟨19, 1, "u9", 9⟩], []⟩
      1 "http" true false 20
      = (⟨[⟨1, "u"⟩],
          [⟨10, 1, "u0", 0⟩, ⟨11, 1, "u1", 1⟩, ⟨12, 1, "u2", 2⟩,
           ⟨13, 1, "u3", 3⟩, ⟨14, 1, "u4", 4⟩, ⟨15, 1, "u5", 5⟩,
           ⟨16, 1, "u6", 6⟩, ⟨17, 1, "u7", 7⟩, ⟨18, 1, "u8", 8⟩,
           ⟨19, 1, "u9", 9⟩], []⟩, .error .validation) :=
  ⟨(add_image_rejected_at_cap "u" _ 1 ⟨1, "u"⟩ (by decide) (by decide)).1
     "path" "url" false false 20,
   (add_image_rejected_at_cap "u" _ 1 ⟨1, "u"⟩ (by decide) (by decide)).2
     "http" true false 20⟩

-- Lemmas for the compaction performed by deleteProductImage.

/-- Inserting into the order-sorted list is a permutation of consing. -/
theorem insertByOrder_perm (a : ImageRow) (l : List ImageRow) :
    List.Perm (insertByOrder a l) (a :: l) := by
  induction l with
  | nil => exact List.Perm.refl _
  | cons b t ih =>
    unfold insertByOrder
    by_cases h : a.display_order ≤ b.display_order
    · rw [if_pos h]
    · rw [if_neg h]
      exact (ih.cons b).trans (List.Perm.swap a b t)

/-- The sort by display_order permutes its input. -/
theorem sortByOrder_perm (l : List ImageRow) :
    List.Perm (sortByOrder l) l := by
  induction l with
  | nil => exact List.Perm.refl _
  | cons a t ih =>
    exact (insertByOrder_perm a (sortByOrder t)).trans (ih.cons a)

/-- A fold of per-id updates over the table equals mapping the composed
per-row update over the table. -/
theorem foldl_update_map (us db : List ImageRow) :
    us.foldl (fun acc img => acc.map fun r =>
        if r.id = img.id then { r with display_order := img.display_order - 1 }
        else r) db
      = db.map fun r => us.foldl (fun s img =>
          if s.id = img.id then { s with display_order := img.display_order - 1 }
          else s) r := by
  induction us generalizing db with
  | nil => simp
  | cons i us ih =>
    rw [List.foldl_cons, ih, List.map_map]
    rfl

/-- Per-row updates whose target ids all differ from the row leave it
unchanged. -/
theorem foldl_update_skip (us : List ImageRow) (s : ImageRow)
    (h : ∀ img ∈ us, img.id ≠ s.id) :
    us.foldl (fun s img =>
        if s.id = img.id then { s with display_order := img.display_order - 1 }
        else s) s = s := by
  induction us with
  | nil => rfl
  | cons i t ih =>
    rw [List.foldl_cons, if_neg fun hh => h i (List.mem_cons_self i t) hh.symm]
    exact ih fun img hm => h img (List.mem_cons_of_mem i hm)

/-- With pairwise distinct update ids, the folded per-id updates
decrement a row exactly when the row is among the updates. -/
theorem foldl_update_single (us : List ImageRow) (r : ImageRow)
    (hnd : (us.map fun x => x.id).Nodup)
    (huniq : ∀ img ∈ us, img.id = r.id → img = r) :
    us.foldl (fun s img =>
        if s.id = img.id then { s with display_order := img.display_order - 1 }
        else s) r
      = if r ∈ us then { r with display_order := r.display_order - 1 }
        else r := by
  induction us with
  | nil => simp
  | cons i t ih =>
    rw [List.foldl_cons]
    by_cases hid : i.id = r.id
    · have hir : i = r := huniq i (List.mem_cons_self i t) hid
      subst hir
      rw [if_pos rfl, if_pos (List.mem_cons_self i t)]
      have hnotin : ∀ img ∈ t,
          img.id ≠ ({ i with display_order := i.display_order - 1 } : ImageRow).id := by
        intro img hm hcontra
        have hhead := (List.nodup_cons.1 hnd).1
        have hci : img.id = i.id := by simpa using hcontra
        have hmm := List.mem_map_of_mem (f := fun x => x.id) hm
        exact hhead (by simpa [hci] using hmm)
      exact foldl_update_skip t _ hnotin
    · rw [if_neg fun hh => hid hh.symm]
      rw [ih (List.nodup_cons.1 hnd).2
        (fun img hm hh => huniq img (List.mem_cons_of_mem i hm) hh)]
      by_cases hmem : r ∈ t
      · rw [if_pos hmem, if_pos (List.mem_cons_of_mem i hmem)]
      · rw [if_neg hmem, if_neg fun hm => ?_]
        rcases List.mem_cons.1 hm with hri | hm2
        · exact hid (by rw [hri])
        · exact hmem hm2

/-- Deleting rows by one id is, up to permutation, erasing the one row
carrying it, when ids are pairwise distinct. -/
theorem filter_ne_perm_erase (l : List ImageRow) (a : ImageRow)
    (hnd : (l.map fun r => r.id).Nodup) (ha : a ∈ l) :
    List.Perm (l.filter fun r => decide (¬ r.id = a.id)) (l.erase a) := by
  induction l with
  | nil => cases ha
  | cons b t ih =>
    rcases List.mem_cons.1 ha with hba | hat
    · subst hba
      rw [List.erase_cons_head]
      have h1 : (a :: t).filter (fun r => decide (¬ r.id = a.id))
          = t.filter (fun r => decide (¬ r.id = a.id)) := by simp
      have h2 : t.filter (fun r => decide (¬ r.id = a.id)) = t := by
        apply List.filter_eq_self.2
        intro x hx
        simp only [decide_eq_true_eq]
        intro hxa
        exact (List.nodup_cons.1 hnd).1
          (by simpa [← hxa] using List.mem_map_of_mem (f := fun r => r.id) hx)
      rw [h1, h2]
    · have hbid : b.id ≠ a.id := by
        intro hcontra
        exact (List.nodup_cons.1 hnd).1
          (by simpa [hcontra] using List.mem_map_of_mem (f := fun r => r.id) hat)
      have hbna : b ≠ a := fun hh => hbid (by rw [hh])
      rw [List.erase_cons_tail (not_beq_of_ne hbna)]
      have h1 : (b :: t).filter (fun r => decide (¬ r.id = a.id))
          = b :: t.filter (fun r => decide (¬ r.id = a.id)) := by
        simp [hbid]
      rw [h1]
      exact (ih (List.nodup_cons.1 hnd).2 hat).cons b

/-- Removing k from the dense multiset of orders zero to n-1 and
shifting the larger elements down yields the dense multiset zero to
n-2. -/
theorem range_erase_map_dec (n k : Nat) (hk : k < n) :
    ((Multiset.range n).erase k).map (fun m => if k < m then m - 1 else m)
      = Multiset.range (n - 1) := by
  induction n with
  | zero => omega
  | succ n ih =>
    rw [Multiset.range_succ]
    rcases Nat.lt_succ_iff_lt_or_eq.1 hk with hkn | hkeq
    · rw [Multiset.erase_cons_tail _ (by omega : n ≠ k), Multiset.map_cons,
        ih hkn, if_pos hkn]
      rw [show n + 1 - 1 = n from rfl]
      have hn1 : n = (n - 1) + 1 := by omega
      conv_rhs => rw [hn1, Multiset.range_succ]
    · subst hkeq
      rw [Multiset.erase_cons_head]
      rw [show k + 1 - 1 = k from rfl]
      have hid : ∀ m ∈ Multiset.range k,
          (if k < m then m - 1 else m) = m := by
        intro m hm
        have hmk := Multiset.mem_range.1 hm
        exact if_neg (by omega)
      rw [Multiset.map_congr rfl hid, Multiset.map_id']

/-- Under the primary-key property of image ids, the sequence of per-id
decrement updates issued by deleteProductImage amounts to one
conditional decrement map over the table without the deleted row. -/
theorem deleteProductImage_images_eq (user : String) (st : ImgState)
    (productId imageId : Nat) (image : ImageRow) (p : ProductRef)
    (hp : st.products.find? (fun x => decide (x.id = productId ∧ x.owner = user))
      = some p)
    (hf : st.images.find? (fun r => decide (r.id = imageId ∧ r.product_id = productId))
      = some image)
    (hnd : (st.images.map fun r => r.id).Nodup) :
    (deleteProductImage user st productId imageId).2 = .ok () ∧
    (deleteProductImage user st productId imageId).1.images
      = (st.images.filter fun r => decide (¬ r.id = imageId)).map fun r =>
          if r.product_id = productId ∧ image.display_order < r.display_order
          then { r with display_order := r.display_order - 1 } else r := by
  unfold deleteProductImage
  rw [hp, hf]
  refine ⟨rfl, ?_⟩
  show List.foldl _ (st.images.filter fun r => decide (¬ r.id = imageId)) _ = _
  have hdb1 : (((st.images.filter fun r => decide (¬ r.id = imageId)).map
      fun x => x.id)).Nodup :=
    hnd.sublist (List.Sublist.map _ (List.filter_sublist _))
  have hrem : (((sortByOrder ((st.images.filter fun r => decide (¬ r.id = imageId)).filter
      fun r => decide (r.product_id = productId ∧ image.display_order < r.display_order))).map
      fun x => x.id)).Nodup := by
    refine (List.Perm.nodup_iff ((sortByOrder_perm _).map _)).2 ?_
    exact hdb1.sublist (List.Sublist.map _ (List.filter_sublist _))
  rw [foldl_update_map]
  apply List.map_congr_left
  intro r hr
  rw [foldl_update_single _ _ hrem ?huniq]
  case huniq =>
    intro img hm hidd
    have himg : img ∈ st.images.filter fun r => decide (¬ r.id = imageId) :=
      List.mem_of_mem_filter ((sortByOrder_perm _).mem_iff.1 hm)
    exact List.inj_on_of_nodup_map hdb1 himg hr hidd
  by_cases hpred : r.product_id = productId ∧ image.display_order < r.display_order
  · rw [if_pos ((sortByOrder_perm _).mem_iff.2
      (List.mem_filter.2 ⟨hr, by simpa using hpred⟩)), if_pos hpred]
  · rw [if_neg ?hnm, if_neg hpred]
    case hnm =>
      intro hcontra
      have hmem2 := List.mem_filter.1 ((sortByOrder_perm _).mem_iff.1 hcontra)
      exact hpred (by simpa using hmem2.2)

/-- C3: with image ids pairwise distinct (the primary key) and the n
display orders of the product forming the dense set zero to n-1,
deleting one image of the product succeeds, rows of the product with
order greater than the deleted order are decremented by one in place
while every other row is unchanged, and the remaining orders of the
product form the dense set zero to n-2. -/
theorem deleteProductImage_dense_orders (user : String) (st : ImgState)
    (productId imageId : Nat) (image : ImageRow) (p : ProductRef) (n : Nat)
    (hp : st.products.find? (fun x => decide (x.id = productId ∧ x.owner = user))
      = some p)
    (hf : st.images.find? (fun r => decide (r.id = imageId ∧ r.product_id = productId))
      = some image)
    (hnd : (st.images.map fun r => r.id).Nodup)
    (hdense : List.Perm
      ((st.images.filter fun r => decide (r.product_id = productId)).map
        fun r => r.display_order)
      (List.range n)) :
    (deleteProductImage user st productId imageId).2 = .ok () ∧
    (deleteProductImage user st productId imageId).1.images
      = ((st.images.filter fun r => decide (¬ r.id = imageId)).map fun r =>
          if r.product_id = productId ∧ image.display_order < r.display_order
          then { r with display_order := r.display_order - 1 } else r) ∧
    List.Perm
      (((deleteProductImage user st productId imageId).1.images.filter
          fun r => decide (r.product_id = productId)).map fun r => r.display_order)
      (List.range (n - 1)) := by
  obtain ⟨hok, himgs⟩ :=
    deleteProductImage_images_eq user st productId imageId image p hp hf hnd
  refine ⟨hok, himgs, ?_⟩
  have himage_mem : image ∈ st.images := List.mem_of_find?_eq_some hf
  have himage_pred : image.id = imageId ∧ image.product_id = productId := by
    have hfs := List.find?_some hf
    simpa using hfs
  have himgs_mem : image ∈ st.images.filter fun r => decide (r.product_id = productId) :=
    List.mem_filter.2 ⟨himage_mem, by simp [himage_pred.2]⟩
  have hndimgs : ((st.images.filter fun r => decide (r.product_id = productId)).map
      fun r => r.id).Nodup :=
    hnd.sublist (List.Sublist.map _ (List.filter_sublist _))
  have hk : image.display_order < n := by
    have hmr : image.display_order ∈ List.range n :=
      hdense.mem_iff.1 (List.mem_map_of_mem _ himgs_mem)
    simpa using hmr
  rw [himgs, List.filter_map]
  have hfc : ((st.images.filter fun r => decide (¬ r.id = imageId)).filter
      ((fun r => decide (r.product_id = productId)) ∘ (fun r =>
        if r.product_id = productId ∧ image.display_order < r.display_order
        then { r with display_order := r.display_order - 1 } else r)))
      = ((st.images.filter fun r => decide (¬ r.id = imageId)).filter
        (fun r => decide (r.product_id = productId))) := by
    apply List.filter_congr
    intro a _
    by_cases hpa : a.product_id = productId ∧ image.display_order < a.display_order
    · simp only [Function.comp_apply, if_pos hpa]
    · simp only [Function.comp_apply, if_neg hpa]
  rw [hfc]
  have hcomm : ((st.images.filter fun r => decide (¬ r.id = imageId)).filter
      (fun r => decide (r.product_id = productId)))
      = ((st.images.filter fun r => decide (r.product_id = productId)).filter
        (fun r => decide (¬ r.id = image.id))) := by
    rw [List.filter_filter, List.filter_filter]
    apply List.filter_congr
    intro a _
    rw [himage_pred.1]
    exact Bool.and_comm _ _
  rw [hcomm, List.map_map]
  have hshift : ((st.images.filter fun r => decide (r.product_id = productId)).filter
        (fun r => decide (¬ r.id = image.id))).map
        ((fun r => r.display_order) ∘ (fun r =>
          if r.product_id = productId ∧ image.display_order < r.display_order
          then { r with display_order := r.display_order - 1 } else r))
      = ((st.images.filter fun r => decide (r.product_id = productId)).filter
        (fun r => decide (¬ r.id = image.id))).map
        ((fun m => if image.display_order < m then m - 1 else m) ∘
          fun r => r.display_order) := by
    apply List.map_congr_left
    intro a ha
    have hap : a.product_id = productId := by
      have hmem2 := (List.mem_filter.1 (List.mem_of_mem_filter ha)).2
      simpa using hmem2
    by_cases hlt : image.display_order < a.display_order
    · have hcond : a.product_id = productId ∧ image.display_order < a.display_order :=
        ⟨hap, hlt⟩
      simp only [Function.comp_apply, if_pos hcond, if_pos hlt]
    · have hcond : ¬(a.product_id = productId ∧ image.display_order < a.display_order) :=
        fun hc => hlt hc.2
      simp only [Function.comp_apply, if_neg hcond, if_neg hlt]
  rw [hshift, ← List.map_map, ← Multiset.coe_eq_coe, ← Multiset.map_coe,
    ← Multiset.map_coe,
    Multiset.coe_eq_coe.2 (filter_ne_perm_erase _ image hndimgs himgs_mem),
    ← Multiset.coe_erase,
    Multiset.map_erase_of_mem _ _ (Multiset.mem_coe.2 himgs_mem),
    Multiset.map_coe, Multiset.coe_eq_coe.2 hdense, Multiset.coe_range,
    Multiset.coe_range]
  simpa using range_erase_map_dec n image.display_order hk

/-- C3 witness: a product with three images at orders zero, one, two;
deleting the middle one leaves orders zero and one, with the larger
order decremented in place. -/
theorem deleteProductImage_dense_orders_witness :
    (deleteProductImage "u"
        ⟨[⟨1, "u"⟩], [⟨10, 1, "a", 0⟩, ⟨11, 1, "b", 1⟩, ⟨12, 1, "c", 2⟩], []⟩
        1 11).2 = .ok () ∧
    (deleteProductImage "u"
        ⟨[⟨1, "u"⟩], [⟨10, 1, "a", 0⟩, ⟨11, 1, "b", 1⟩, ⟨12, 1, "c", 2⟩], []⟩
        1 11).1.images
      = (([⟨10, 1, "a", 0⟩, ⟨11, 1, "b", 1⟩, ⟨12, 1, "c", 2⟩] :
            List ImageRow).filter fun r => decide (¬ r.id = 11)).map (fun r =>
          if r.product_id = 1 ∧ 1 < r.display_order
          then { r with display_order := r.display_order - 1 } else r) ∧
    List.Perm
      (((deleteProductImage "u"
          ⟨[⟨1, "u"⟩], [⟨10, 1, "a", 0⟩, ⟨11, 1, "b", 1⟩, ⟨12, 1, "c", 2⟩], []⟩
          1 11).1.images.filter
        fun r => decide (r.product_id = 1)).map fun r => r.display_order)
      (List.range 2) :=
  deleteProductImage_dense_orders "u"
    ⟨[⟨1, "u"⟩], [⟨10, 1, "a", 0⟩, ⟨11, 1, "b", 1⟩, ⟨12, 1, "c", 2⟩], []⟩
    1 11 ⟨11, 1, "b", 1⟩ ⟨1, "u"⟩ 3
    (by decide) (by decide) (by decide) (by decide)

end Images

end InventoryTracker
